import Mathlib

set_option maxRecDepth 2000

/-!
Verification of the polling / deduplication / streaming-fanout core of the
polymarket-wallet-voice-tracker repository, as a shallow embedding in Lean 4.

Embedding conventions:
* JS numbers are modelled as `Int` (timestamps) and `Rat` (prices, sizes,
  delays); the claims under study only exercise exact arithmetic.
* JS `Map` and the per-wallet watermark store are modelled as association
  lists; the JS `Set` of already-sent ids is modelled as a `List String`
  kept in insertion order (JS `Set` iteration order), oldest first, so that
  `Array.from(set).slice(-k)` is `List.drop (len - k)`.
* `async` control flow is straight-line: the server poll loop's single cycle
  body (src/app/api/stream/route.ts, `pollLoop`) becomes the pure state
  transformer `pollCycle`; the client cycle (src/app/page.tsx, `pollOnce`)
  becomes the pure `Page.pollOnce`.
* Fallible fetches are `Except Unit` values supplied as inputs.
-/

namespace PMVT

/-- Trade side; any raw value other than the literal SELL marker parses to BUY
(src/lib/polymarket.ts line 37). -/
inductive Side where
  | BUY
  | SELL
deriving DecidableEq

/-- Rendering of a side used inside template-literal ids
(backs the JS string interpolation of `t.side`). -/
def Side.render : Side → String
  | .BUY => "BUY"
  | .SELL => "SELL"

/-- Normalized trade record produced by src/lib/polymarket.ts. Numeric fields
that may be absent are `Option`; `timestamp` has already been through
`normalizeTimestamp`, so it is in milliseconds. -/
structure PolymarketTrade where
  proxyWallet : String
  timestamp : Int
  side : Side
  title : Option String := none
  outcome : Option String := none
  size : Option Rat := none
  usdcSize : Option Rat := none
  price : Option Rat := none
  transactionHash : Option String := none
  slug : Option String := none
deriving DecidableEq

/-- Canonical trade event (src/app/api/stream/route.ts lines 8-20). -/
structure TradeEvent where
  id : String
  wallet : String
  trader : String
  side : Side
  outcome : Option String
  title : Option String
  shares : Option Rat
  usdc : Option Rat
  price : Option Rat
  timestampMs : Int
  tx : Option String
deriving DecidableEq

/-- src/lib/polymarket.ts lines 14-18: values above 10,000,000,000 are taken to
be milliseconds already; everything else is multiplied by 1000. -/
def normalizeTimestamp (ts : Int) : Int :=
  if ts > 10000000000 then ts else ts * 1000

/-- Decimal rendering of an integer, as JS template interpolation of a number. -/
def intStr (i : Int) : String := toString i

/-- Stand-in for JS template interpolation of an optional numeric field
(`undefined` renders as the literal text). The exact digits JS would print are
immaterial to every claim (no claim exercises the composite-id fallback), so a
numerator/denominator rendering is used. -/
def optRatStr (q : Option Rat) : String :=
  match q with
  | none => "undefined"
  | some q => toString q.num ++ "/" ++ toString q.den

/-- src/app/api/stream/route.ts lines 46-62 (`toTradeEvent`): the id is
`proxyWallet:txHash` when a transaction hash is present, otherwise the
composite `proxyWallet:timestamp:side:price:size`. The wallet field is the
API-provided `proxyWallet`, passed through unchanged. -/
def toTradeEvent (t : PolymarketTrade) (trader : String) : TradeEvent :=
  let tx := t.transactionHash.getD ""
  let id :=
    if tx ≠ "" then t.proxyWallet ++ ":" ++ tx
    else
      t.proxyWallet ++ ":" ++ intStr t.timestamp ++ ":" ++ t.side.render ++ ":" ++
        optRatStr t.price ++ ":" ++ optRatStr t.size
  { id := id
    wallet := t.proxyWallet
    trader := trader
    side := t.side
    outcome := t.outcome
    title := t.title
    shares := t.size
    usdc := t.usdcSize
    price := t.price
    timestampMs := t.timestamp
    tx := if tx = "" then none else some tx }

/-- Row of the tracked-wallet sheet (src/lib/sheets.ts). -/
structure TrackedWallet where
  trader : String
  wallet : String
deriving DecidableEq

/-- The process-wide mutable state of the stream route
(src/app/api/stream/route.ts lines 22-44), minus the viewer set, which is
carried separately as a viewer count where a claim needs it. -/
structure SSEState where
  lastSeenByWallet : List (String × Int)
  lastSentIds : List String
deriving DecidableEq

/-- State at process start: both stores empty (`getState`). -/
def initialState : SSEState := ⟨[], []⟩

/-- `state.lastSeenByWallet.get(w) ?? 0`: first matching key, defaulting to 0. -/
def lookupWallet (m : List (String × Int)) (w : String) : Int :=
  match m with
  | [] => 0
  | (k, v) :: rest => if k = w then v else lookupWallet rest w

/-- `state.lastSeenByWallet.set(w, v)`: replace the first matching key in
place, otherwise append (JS `Map` keeps insertion order). -/
def setWallet (m : List (String × Int)) (w : String) (v : Int) : List (String × Int) :=
  match m with
  | [] => [(w, v)]
  | (k, x) :: rest => if k = w then (w, v) :: rest else (k, x) :: setWallet rest w v

/-- `lastSentIds` size cap (route.ts line 111). -/
def SENT_CAP : Nat := 5000

/-- Retained size after a truncation (route.ts line 112). -/
def SENT_KEEP : Nat := 2500

/-- Body of the inner loop over fresh events (route.ts lines 105-117): skip if
the id was already sent, otherwise append the id, truncate the id set down to
the most recent `SENT_KEEP` entries when it exceeds `SENT_CAP`, and push the
event. The pair carries (sent ids, accumulated new events). -/
def admitEvent (acc : List String × List TradeEvent) (e : TradeEvent) :
    List String × List TradeEvent :=
  if e.id ∈ acc.1 then acc
  else
    let s2 := acc.1 ++ [e.id]
    let s3 := if SENT_CAP < s2.length then s2.drop (s2.length - SENT_KEEP) else s2
    (s3, acc.2 ++ [e])

/-- route.ts lines 97-99: map raw trades to events and keep those strictly
newer than the wallet's stored watermark. -/
def freshEvents (st : SSEState) (w : TrackedWallet) (trades : List PolymarketTrade) :
    List TradeEvent :=
  (trades.map (fun t => toTradeEvent t w.trader)).filter
    (fun e => lookupWallet st.lastSeenByWallet w.wallet < e.timestampMs)

/-- `Math.max(...fresh.map(ts))` on a nonempty list (route.ts line 102);
the `[]` case is never reached by the loop. -/
def maxTs : List TradeEvent → Int
  | [] => 0
  | e :: rest => rest.foldl (fun m x => max m x.timestampMs) e.timestampMs

/-- Per-wallet body of the poll cycle (route.ts lines 93-119), carried over the
pair (shared state, accumulated new events for this cycle). -/
def stepWallet (acc : SSEState × List TradeEvent) (wt : TrackedWallet × List PolymarketTrade) :
    SSEState × List TradeEvent :=
  let st := acc.1
  let fresh := freshEvents st wt.1 wt.2
  if fresh.isEmpty then acc
  else
    let st1 : SSEState :=
      { st with lastSeenByWallet := setWallet st.lastSeenByWallet wt.1.wallet (maxTs fresh) }
    let inner := fresh.foldl admitEvent (st1.lastSentIds, acc.2)
    ({ st1 with lastSentIds := inner.1 }, inner.2)

/-- Modelled from the spec: src/lib/concurrency.ts (`mapWithConcurrency`) is
absent from the source snapshot; only its caller is present. Spec section 4.3
fixes its contract: process the list in windows of at most `c` items, each
window fully completing before the next starts, preserving input order in the
output. `fuel` bounds the number of windows; the wrapper supplies enough. -/
def mapWithConcurrencyAux {α β : Type} (f : α → β) (c : Nat) : Nat → List α → List β
  | _, [] => []
  | 0, l => l.map f
  | fuel + 1, x :: xs => f x :: ((xs.take (c - 1)).map f ++ mapWithConcurrencyAux f c fuel (xs.drop (c - 1)))

/-- Modelled from the spec: bounded-concurrency batch runner wrapper, argument
order as at the call site in route.ts line 82. -/
def mapWithConcurrency {α β : Type} (l : List α) (c : Nat) (f : α → β) : List β :=
  mapWithConcurrencyAux f c l.length l

/-- route.ts lines 82-89: each wallet's fetch failure degrades to an empty
trade list via the per-wallet try/catch. -/
def fetchOrEmpty (fetch : String → Except Unit (List PolymarketTrade)) (w : String) :
    List PolymarketTrade :=
  match fetch w with
  | .ok ts => ts
  | .error _ => []

/-- Concurrency ceiling of the server loop (route.ts line 74). -/
def CONCURRENCY : Nat := 8

/-- One cycle of the server poll loop (route.ts lines 77-127 without the
sleep): fetch every wallet (bounded concurrency, soft-failing), then run the
watermark/dedupe admission per wallet, accumulating this cycle's new events. -/
def pollCycle (wallets : List TrackedWallet)
    (fetch : String → Except Unit (List PolymarketTrade)) (st : SSEState) :
    SSEState × List TradeEvent :=
  let perWallet := mapWithConcurrency wallets CONCURRENCY
    (fun w => (w, fetchOrEmpty fetch w.wallet))
  perWallet.foldl stepWallet (st, [])

/-- Comparator used by `newEvents.sort((a, b) => a.timestampMs - b.timestampMs)`. -/
def tsle (a b : TradeEvent) : Prop := a.timestampMs ≤ b.timestampMs

instance : DecidableRel tsle := fun a b => inferInstanceAs (Decidable (a.timestampMs ≤ b.timestampMs))

instance : IsTotal TradeEvent tsle := ⟨fun a b => Int.le_total a.timestampMs b.timestampMs⟩

instance : IsTrans TradeEvent tsle := ⟨fun _ _ _ => Int.le_trans⟩

/-- The ascending-by-timestamp sort of route.ts line 123, modelled by the
stable insertion sort (ES Array.prototype.sort is specified stable). -/
def sortEvents (l : List TradeEvent) : List TradeEvent := List.insertionSort tsle l

/-- route.ts lines 121-127: the events frame is written only when the cycle
admitted something and at least one viewer is attached; it carries the sorted
new events. -/
def deliveredFrame (clients : Nat) (events : List TradeEvent) : List TradeEvent :=
  if events ≠ [] ∧ clients ≠ 0 then sortEvents events else []

/-- One full cycle including fan-out gating: next state plus the event list
written to each attached viewer (empty when the write is skipped). -/
def cycleOutput (clients : Nat) (wallets : List TrackedWallet)
    (fetch : String → Except Unit (List PolymarketTrade)) (st : SSEState) :
    SSEState × List TradeEvent :=
  let r := pollCycle wallets fetch st
  (r.1, deliveredFrame clients r.2)

/-- Character-wise lowercasing, the model of JS `String.prototype.toLowerCase`
on the ASCII wallet addresses this program handles. -/
def jsToLowerCase (s : String) : String := String.mk (s.data.map Char.toLower)

end PMVT

namespace PMVT.Page

/-- Client-side raw trade shape (src/app/page.tsx lines 7-16). -/
structure Trade where
  proxyWallet : Option String := none
  side : Side
  size : Rat
  price : Rat
  timestamp : Int
  title : String
  outcome : Option String := none
  transactionHash : Option String := none
deriving DecidableEq

/-- Rendering of a rational in a template literal; stand-in for JS number
formatting (the exact digits are immaterial to every claim). -/
def ratStr (q : Rat) : String := toString q.num ++ "/" ++ toString q.den

/-- page.tsx lines 31-33 (`keyForTrade`). -/
def keyForTrade (t : Trade) : String :=
  (t.transactionHash.getD "nohash") ++ ":" ++ intStr t.timestamp ++ ":" ++ ratStr t.size ++ ":" ++
    ratStr t.price ++ ":" ++ t.title ++ ":" ++ t.side.render ++ ":" ++ (t.outcome.getD "")

/-- Wallet row as loaded from /api/wallets (page.tsx line 5). -/
structure WalletRow where
  name : String
  wallet : String
deriving DecidableEq

/-- page.tsx lines 86, 110-113 (`shouldTrackSide`). -/
inductive TrackMode where
  | BUY
  | SELL
  | BOTH
deriving DecidableEq

def shouldTrackSide (mode : TrackMode) (s : Side) : Bool :=
  match mode, s with
  | .BOTH, _ => true
  | .BUY, .BUY => true
  | .SELL, .SELL => true
  | _, _ => false

/-- page.tsx lines 115-119 (`passesMinUsdFilter`). -/
def passesMinUsdFilter (minFilterEnabled : Bool) (minUsd : Rat) (t : Trade) : Bool :=
  if minFilterEnabled then decide (minUsd ≤ t.size * t.price) else true

/-- The client seen-store `seenRef.current` (page.tsx line 93), a per-wallet
record of seen keys, flattened to (wallet, key) pairs. -/
abbrev Seen := List (String × String)

/-- page.tsx lines 220-223: the lowercased wallet list built at the top of
`pollOnce`. -/
def lowerRows (wallets : List WalletRow) : List WalletRow :=
  wallets.map (fun w => { name := w.name, wallet := jsToLowerCase w.wallet })

/-- One wallet of `primeSeen` (page.tsx lines 183-197): on a successful fetch
every returned trade's key is marked seen for the lowercased wallet; a failed
fetch marks nothing. -/
def primeWallet (fetch : String → Except Unit (List Trade)) (seen : Seen) (w : WalletRow) :
    Seen :=
  match fetch (jsToLowerCase w.wallet) with
  | .error _ => seen
  | .ok trades => seen ++ trades.map (fun t => (jsToLowerCase w.wallet, keyForTrade t))

/-- `primeSeen` (page.tsx lines 181-209): one fetch-and-mark pass over all
wallets whose announcements are discarded. -/
def primeSeen (wallets : List WalletRow) (fetch : String → Except Unit (List Trade))
    (seen : Seen) : Seen :=
  wallets.foldl (primeWallet fetch) seen

/-- Per-trade body of `pollOnce` (page.tsx lines 271-321): side filter, min-$
filter, seen check, mark seen, announce. The pair carries (seen store,
announced trades as (wallet, trade)). -/
def pollTrade (mode : TrackMode) (minFilterEnabled : Bool) (minUsd : Rat) (wallet : String)
    (acc : Seen × List (String × Trade)) (t : Trade) : Seen × List (String × Trade) :=
  if shouldTrackSide mode t.side then
    if passesMinUsdFilter minFilterEnabled minUsd t then
      let k := keyForTrade t
      if (wallet, k) ∈ acc.1 then acc
      else (acc.1 ++ [(wallet, k)], acc.2 ++ [(wallet, t)])
    else acc
  else acc

/-- Per-wallet body of `pollOnce` (page.tsx lines 230-337): a failed fetch
announces nothing for that wallet (only a log line and a throttle signal). -/
def pollWallet (fetch : String → Except Unit (List Trade)) (mode : TrackMode)
    (minFilterEnabled : Bool) (minUsd : Rat) (acc : Seen × List (String × Trade))
    (w : WalletRow) : Seen × List (String × Trade) :=
  match fetch w.wallet with
  | .error _ => acc
  | .ok trades => trades.foldl (pollTrade mode minFilterEnabled minUsd w.wallet) acc

/-- One client poll cycle (page.tsx lines 211-345): fold the per-wallet body
over the lowercased wallet list, starting from the current seen store with no
announcements. -/
def pollOnce (wallets : List WalletRow) (fetch : String → Except Unit (List Trade))
    (mode : TrackMode) (minFilterEnabled : Bool) (minUsd : Rat) (seen : Seen) :
    Seen × List (String × Trade) :=
  (lowerRows wallets).foldl (pollWallet fetch mode minFilterEnabled minUsd) (seen, [])

/-- Adaptive delay update (page.tsx lines 354-358): back off by 1.5x up to a
20 s ceiling on throttling, otherwise speed up by 0.9x down to a 1400 ms
floor. -/
def nextDelay (d : Rat) (throttled : Bool) : Rat :=
  if throttled then min (d * 1.5) 20000 else max (d * 0.9) 1400

/-- Delay after folding a run of per-cycle throttle signals, starting from
`d0` (the ref starts at 2500, page.tsx line 96). -/
def delaySeq (d0 : Rat) (signals : List Bool) : Rat :=
  signals.foldl nextDelay d0

end PMVT.Page

namespace PMVT

/-- A fetch with every failure replaced by an empty success; route.ts lines
83-88 make a failing fetch and an empty successful fetch indistinguishable to
the rest of the cycle. -/
def errMask (fetch : String → Except Unit (List PolymarketTrade)) :
    String → Except Unit (List PolymarketTrade) :=
  fun a => .ok (fetchOrEmpty fetch a)

/-- Concrete wallet row used by the C5 witness. -/
def c5wallet : TrackedWallet := ⟨"T", "a"⟩

/-- Two trades arriving newest-first (the API sorts DESC), so the admitted
list is out of chronological order before the sort. -/
def c5tradeLate : PolymarketTrade := ⟨"a", 200, .BUY, none, none, none, none, none, some "h2", none⟩

def c5tradeEarly : PolymarketTrade := ⟨"a", 100, .BUY, none, none, none, none, none, some "h1", none⟩

def c5fetch : String → Except Unit (List PolymarketTrade) :=
  fun a => if a = "a" then .ok [c5tradeLate, c5tradeEarly] else .ok []

/-- Concrete inputs used by the C10 witness. -/
def c10wallet : TrackedWallet := ⟨"T", "a"⟩

def c10trade : PolymarketTrade := ⟨"a", 100, .BUY, none, none, none, none, none, some "h", none⟩

def c10fetch : String → Except Unit (List PolymarketTrade) :=
  fun a => if a = "a" then .ok [c10trade] else .ok []

/-- Concrete event used by the C4 witness. -/
def c4event : TradeEvent := ⟨"i", "w", "T", .BUY, none, none, none, none, none, 1, none⟩

/-- Concrete inputs for the C9 counterexample: a mixed-case sheet address. -/
def c9wallet : TrackedWallet := ⟨"T", "0xAB"⟩

def c9trade : PolymarketTrade := ⟨"0xAB", 100, .BUY, none, none, none, none, none, some "h", none⟩

/-- Fetch that only has trades under the mixed-case address, none under the
lowercased one. -/
def c9fetch : String → Except Unit (List PolymarketTrade) :=
  fun a => if a = "0xAB" then .ok [c9trade] else .ok []

/-- Client-side trade used by the C9 amended witness. -/
def c9pageTrade : Page.Trade := ⟨none, .BUY, 1, 1, 100, "M", none, some "h"⟩

/-- Concrete inputs for the C1 counterexample: one viewer, one wallet, one
historical upstream trade present at loop start. -/
def c1wallet : TrackedWallet := ⟨"T", "a"⟩

def c1trade : PolymarketTrade := ⟨"a", 100, .BUY, none, none, none, none, none, some "h", none⟩

def c1fetch : String → Except Unit (List PolymarketTrade) :=
  fun a => if a = "a" then .ok [c1trade] else .ok []

/-- Client-side trades and fetches for the C1 amended witness: priming sees
one historical trade; the live cycle then also sees one strictly newer one. -/
def c1pageOld : Page.Trade := ⟨none, .BUY, 1, 1, 100, "M", none, some "h1"⟩

def c1pageNew : Page.Trade := ⟨none, .BUY, 1, 1, 200, "M", none, some "h2"⟩

def c1pageFetch : String → Except Unit (List Page.Trade) :=
  fun a => if a = "w" then .ok [c1pageOld] else .error ()

def c1pageFetch2 : String → Except Unit (List Page.Trade) :=
  fun a => if a = "w" then .ok [c1pageNew, c1pageOld] else .error ()

/-- A string of n copies of the letter u; transaction hashes of the C2 flood
trades, distinct by length. -/
def uStr (n : Nat) : String := String.mk (List.replicate n 'u')

/-- C2 counterexample cast: wallet A emits one trade with tx hash t in cycle
one and re-emits the same identity with a newer timestamp in cycle two; wallet
B floods 5000 distinct trades in cycle one, overflowing `lastSentIds` so that
truncation evicts A's id. -/
def c2walletA : TrackedWallet := ⟨"A", "a"⟩

def c2walletB : TrackedWallet := ⟨"B", "b"⟩

def c2tradeOne : PolymarketTrade := ⟨"a", 100, .BUY, none, none, none, none, none, some "t", none⟩

/-- The same upstream identity (same proxy wallet and tx hash, hence the same
id) carrying a newer timestamp on the second fetch. -/
def c2tradeTwo : PolymarketTrade := ⟨"a", 200, .BUY, none, none, none, none, none, some "t", none⟩

def c2flood (i : Nat) : PolymarketTrade :=
  ⟨"b", (i : Int) + 1, .BUY, none, none, none, none, none, some (uStr (i + 1)), none⟩

def c2floodTrades : List PolymarketTrade := (List.range 5000).map c2flood

def c2fetchOne : String → Except Unit (List PolymarketTrade) :=
  fun a => if a = "a" then .ok [c2tradeOne] else if a = "b" then .ok c2floodTrades else .ok []

def c2fetchTwo : String → Except Unit (List PolymarketTrade) :=
  fun a => if a = "a" then .ok [c2tradeTwo] else .ok []

def c2eventOne : TradeEvent := toTradeEvent c2tradeOne "A"

def c2eventTwo : TradeEvent := toTradeEvent c2tradeTwo "A"

def c2floodEvent (i : Nat) : TradeEvent := toTradeEvent (c2flood i) "B"

def c2floodEvents : List TradeEvent := (List.range 5000).map c2floodEvent

/-- The shared id of the duplicated trade (proxyWallet:txHash). -/
def c2aId : String := "a" ++ ":" ++ "t"

/-- Id of the i-th flood event. -/
def c2bId (i : Nat) : String := "b" ++ ":" ++ uStr (i + 1)

/-- State after cycle one has processed wallet A. -/
def c2state1 : SSEState := ⟨[("a", 100)], [c2aId]⟩

/-- Sent-id set after cycle one: the flood overflowed the cap, truncation kept
the most recent 2500 flood ids, and the id of A's trade was evicted. -/
def c2sentB : List String := ((List.range 5000).map c2bId).drop 2500

/-- Concrete inputs for the C2 amended witness. -/
def c2amWallet : TrackedWallet := ⟨"T", "w"⟩

def c2amTrade : PolymarketTrade := ⟨"w", 100, .BUY, none, none, none, none, none, some "h", none⟩

def c2amFetch : String → Except Unit (List PolymarketTrade) :=
  fun a => if a = "w" then .ok [c2amTrade] else .ok []

def c2amState : SSEState := ⟨[("w", 100)], []⟩

/-- Concrete inputs used by the C3 witness: a trade at timestamp 50 against a
stored watermark of 100. -/
def c3trade : PolymarketTrade := ⟨"w", 50, .BUY, none, none, none, none, none, some "h", none⟩

def c3state : SSEState := ⟨[("w", 100)], ["x"]⟩

/-- Concrete wallet row used by the C7 witness. -/
def c7wallet : TrackedWallet := ⟨"T", "a"⟩

theorem mapWithConcurrencyAux_eq_map {α β : Type} (f : α → β) (c : Nat) :
    ∀ (fuel : Nat) (l : List α), mapWithConcurrencyAux f c fuel l = l.map f := by
  intro fuel
  induction fuel with
  | zero => intro l; cases l <;> simp [mapWithConcurrencyAux]
  | succ n ih =>
    intro l
    cases l with
    | nil => simp [mapWithConcurrencyAux]
    | cons x xs =>
      simp only [mapWithConcurrencyAux, ih]
      rw [← List.map_append, List.take_append_drop]
      simp

theorem mapWithConcurrency_eq_map {α β : Type} (l : List α) (c : Nat) (f : α → β) :
    mapWithConcurrency l c f = l.map f :=
  mapWithConcurrencyAux_eq_map f c l.length l

theorem pollCycle_eq_foldl (wallets : List TrackedWallet)
    (fetch : String → Except Unit (List PolymarketTrade)) (st : SSEState) :
    pollCycle wallets fetch st =
      (wallets.map (fun w => (w, fetchOrEmpty fetch w.wallet))).foldl stepWallet (st, []) := by
  unfold pollCycle
  rw [mapWithConcurrency_eq_map]

theorem pollCycle_fetch_congr (wallets : List TrackedWallet)
    (fetch fetch2 : String → Except Unit (List PolymarketTrade)) (st : SSEState)
    (h : ∀ w ∈ wallets, fetchOrEmpty fetch w.wallet = fetchOrEmpty fetch2 w.wallet) :
    pollCycle wallets fetch st = pollCycle wallets fetch2 st := by
  rw [pollCycle_eq_foldl, pollCycle_eq_foldl]
  have hmap : wallets.map (fun w => (w, fetchOrEmpty fetch w.wallet)) =
      wallets.map (fun w => (w, fetchOrEmpty fetch2 w.wallet)) :=
    List.map_congr_left (fun w hw => by rw [h w hw])
  rw [hmap]

/-- Claim C6 counterexample: the spec says a timestamp of exactly
10,000,000,000 is already milliseconds and maps unchanged, but
`normalizeTimestamp` uses a strict comparison and multiplies it by 1000. -/
theorem c6_counterexample :
    normalizeTimestamp 10000000000 = 10000000000 * 1000 ∧
      normalizeTimestamp 10000000000 ≠ 10000000000 := by
  constructor
  · simp [normalizeTimestamp]
  · simp [normalizeTimestamp]

/-- Claim C6 (amended): the normalizer maps ts unchanged when
ts > 10,000,000,000 (strictly above the threshold) and to ts * 1000 when
ts ≤ 10,000,000,000; in particular 1700000000 maps to 1700000000000 and
1700000000000 maps unchanged. -/
theorem c6_amended (ts : Int) :
    (10000000000 < ts → normalizeTimestamp ts = ts) ∧
      (ts ≤ 10000000000 → normalizeTimestamp ts = ts * 1000) ∧
      normalizeTimestamp 1700000000 = 1700000000000 ∧
      normalizeTimestamp 1700000000000 = 1700000000000 := by
  refine ⟨fun h => ?_, fun h => ?_, by simp [normalizeTimestamp], by simp [normalizeTimestamp]⟩
  · simp [normalizeTimestamp, h]
  · simp [normalizeTimestamp]
    omega

/-- Witness for the amended C6 theorem at 20000000000 (milliseconds branch)
and 1700000000 (seconds branch). -/
theorem c6_amended_witness :
    ((10000000000 : Int) < 20000000000 ∧ normalizeTimestamp 20000000000 = 20000000000) ∧
      ((1700000000 : Int) ≤ 10000000000 ∧ normalizeTimestamp 1700000000 = 1700000000 * 1000) :=
  ⟨⟨by norm_num, (c6_amended 20000000000).1 (by norm_num)⟩,
    ⟨by norm_num, (c6_amended 1700000000).2.1 (by norm_num)⟩⟩

/-- Claim C8: in the adaptive client loop, a throttling signal on cycle N
makes the next delay min(delay * 1.5, 20000); no signal makes it
max(delay * 0.9, 1400), and the 1400 ms floor lies in the 1.4 to 2.5 second
range. -/
theorem c8_adaptive_delay (d0 : Rat) (signals : List Bool) (n : Nat)
    (h : n < signals.length) :
    Page.delaySeq d0 (signals.take (n + 1)) =
      (if signals.get ⟨n, h⟩ = true
        then min (Page.delaySeq d0 (signals.take n) * 1.5) 20000
        else max (Page.delaySeq d0 (signals.take n) * 0.9) 1400) ∧
      ((1.4 : Rat) * 1000 ≤ 1400 ∧ (1400 : Rat) ≤ 2.5 * 1000) := by
  refine ⟨?_, by norm_num, by norm_num⟩
  have hsplit : signals.take (n + 1) = signals.take n ++ [signals.get ⟨n, h⟩] := by
    rw [List.take_succ, List.getElem?_eq_getElem h]
    simp [List.get_eq_getElem]
  rw [hsplit]
  unfold Page.delaySeq
  rw [List.foldl_append]
  cases hg : signals.get ⟨n, h⟩ <;> simp [Page.nextDelay, hg]

/-- Witness for C8: starting delay 2500, one throttled cycle yields
min(2500 * 1.5, 20000) = 3750. -/
theorem c8_adaptive_delay_witness :
    Page.delaySeq 2500 (List.take 1 [true]) =
      min (Page.delaySeq 2500 (List.take 0 [true]) * 1.5) 20000 ∧
      Page.delaySeq 2500 (List.take 1 [true]) = 3750 := by
  have h := c8_adaptive_delay 2500 [true] 0 (by norm_num)
  refine ⟨by simpa using h.1, ?_⟩
  simp [Page.delaySeq, Page.nextDelay]
  norm_num

theorem toTradeEvent_timestampMs (t : PolymarketTrade) (tr : String) :
    (toTradeEvent t tr).timestampMs = t.timestamp := rfl

theorem toTradeEvent_wallet (t : PolymarketTrade) (tr : String) :
    (toTradeEvent t tr).wallet = t.proxyWallet := rfl

/-- Claim C3: when every fetched trade for a wallet is at or below the stored
watermark, the per-wallet admit step admits nothing and leaves the state
(watermark map and sent-id set) untouched. -/
theorem c3_no_new_trades (st : SSEState) (acc : List TradeEvent) (w : TrackedWallet)
    (trades : List PolymarketTrade)
    (h : ∀ t ∈ trades, t.timestamp ≤ lookupWallet st.lastSeenByWallet w.wallet) :
    stepWallet (st, acc) (w, trades) = (st, acc) := by
  have hf : freshEvents st w trades = [] := by
    rw [freshEvents, List.filter_eq_nil_iff]
    intro e he
    rcases List.mem_map.mp he with ⟨t, ht, rfl⟩
    have ht2 := h t ht
    simp only [toTradeEvent_timestampMs, decide_eq_true_eq]
    omega
  simp [stepWallet, hf]

/-- Witness for C3 at a concrete stale trade: the hypothesis holds and the
step is the identity. -/
theorem c3_no_new_trades_witness :
    c3trade.timestamp ≤ lookupWallet c3state.lastSeenByWallet "w" ∧
      stepWallet (c3state, []) (⟨"T", "w"⟩, [c3trade]) = (c3state, []) :=
  ⟨by decide, c3_no_new_trades c3state [] ⟨"T", "w"⟩ [c3trade] (by decide)⟩

/-- Claim C5: the events frame of a cycle is sorted ascending by timestamp,
and (when it is written at all) is a permutation of the cycle's admitted
events, whatever order the per-wallet fetches produced them in. -/
theorem c5_sorted_delivery (wallets : List TrackedWallet)
    (fetch : String → Except Unit (List PolymarketTrade)) (st : SSEState) (c : Nat) :
    List.Sorted tsle (deliveredFrame c (pollCycle wallets fetch st).2) ∧
      ((pollCycle wallets fetch st).2 ≠ [] → c ≠ 0 →
        (deliveredFrame c (pollCycle wallets fetch st).2).Perm
          (pollCycle wallets fetch st).2) := by
  constructor
  · simp only [deliveredFrame, sortEvents]
    split
    · exact List.sorted_insertionSort tsle _
    · exact List.sorted_nil
  · intro h1 h2
    simp only [deliveredFrame, sortEvents]
    rw [if_pos ⟨h1, h2⟩]
    exact List.perm_insertionSort tsle _

/-- Witness for C5: one wallet returning two trades newest-first; the cycle
admits both and the delivered frame is a sorted permutation of them. -/
theorem c5_sorted_delivery_witness :
    (pollCycle [c5wallet] c5fetch initialState).2 ≠ [] ∧ (1 : Nat) ≠ 0 ∧
      (deliveredFrame 1 (pollCycle [c5wallet] c5fetch initialState).2).Perm
        (pollCycle [c5wallet] c5fetch initialState).2 :=
  ⟨by decide, by decide,
    (c5_sorted_delivery [c5wallet] c5fetch initialState 1).2 (by decide) (by decide)⟩

/-- Claim C7: a wallet whose fetch fails contributes an empty trade list, the
cycle is exactly the cycle run with that failure replaced by an empty success
(so no error propagates and every other wallet's result is untouched), and
per-wallet results depend only on each wallet's own (soft-failed) fetch
outcome. -/
theorem c7_soft_failure (wallets : List TrackedWallet)
    (fetch : String → Except Unit (List PolymarketTrade)) (st : SSEState) :
    pollCycle wallets (errMask fetch) st = pollCycle wallets fetch st ∧
      (∀ a, fetch a = .error () → fetchOrEmpty fetch a = []) ∧
      (∀ fetch2, (∀ w ∈ wallets, fetchOrEmpty fetch w.wallet = fetchOrEmpty fetch2 w.wallet) →
        pollCycle wallets fetch st = pollCycle wallets fetch2 st) := by
  refine ⟨rfl, ?_, ?_⟩
  · intro a h
    simp [fetchOrEmpty, h]
  · intro fetch2 hagree
    exact pollCycle_fetch_congr wallets fetch fetch2 st hagree

/-- Witness for C7: an always-failing fetch yields empty per-wallet results
and the same cycle as an always-empty fetch. -/
theorem c7_soft_failure_witness :
    fetchOrEmpty (fun _ => .error ()) "a" = [] ∧
      pollCycle [c7wallet] (errMask (fun _ => .error ())) initialState =
        pollCycle [c7wallet] (fun _ => .error ()) initialState :=
  ⟨(c7_soft_failure [c7wallet] (fun _ => .error ()) initialState).2.1 "a" rfl,
    (c7_soft_failure [c7wallet] (fun _ => .error ()) initialState).1⟩

theorem admitEvent_fst_length_le (ini : List String × List TradeEvent) (e : TradeEvent)
    (h : ini.1.length ≤ SENT_CAP) : (admitEvent ini e).1.length ≤ SENT_CAP := by
  by_cases hm : e.id ∈ ini.1
  · simpa [admitEvent, hm] using h
  · simp only [admitEvent, hm, if_false, ite_false]
    split
    · rename_i hlen
      rw [List.length_drop]
      simp only [List.length_append, List.length_singleton] at hlen ⊢
      simp only [SENT_CAP, SENT_KEEP] at hlen ⊢
      omega
    · rename_i hlen
      simp only [List.length_append, List.length_singleton] at hlen ⊢
      omega

theorem foldl_admitEvent_length_le :
    ∀ (evs : List TradeEvent) (ini : List String × List TradeEvent),
      ini.1.length ≤ SENT_CAP → ((evs.foldl admitEvent ini).1).length ≤ SENT_CAP := by
  intro evs
  induction evs with
  | nil => intro ini h; simpa using h
  | cons e rest ih =>
    intro ini h
    rw [List.foldl_cons]
    exact ih (admitEvent ini e) (admitEvent_fst_length_le ini e h)

theorem stepWallet_fst_length_le (ini : SSEState × List TradeEvent)
    (wt : TrackedWallet × List PolymarketTrade)
    (h : ini.1.lastSentIds.length ≤ SENT_CAP) :
    (stepWallet ini wt).1.lastSentIds.length ≤ SENT_CAP := by
  by_cases hf : (freshEvents ini.1 wt.1 wt.2).isEmpty = true
  · simpa [stepWallet, hf] using h
  · simp only [stepWallet, hf, if_false, ite_false]
    exact foldl_admitEvent_length_le _ _ h

theorem foldl_stepWallet_length_le :
    ∀ (pairs : List (TrackedWallet × List PolymarketTrade)) (ini : SSEState × List TradeEvent),
      ini.1.lastSentIds.length ≤ SENT_CAP →
        ((pairs.foldl stepWallet ini).1).lastSentIds.length ≤ SENT_CAP := by
  intro pairs
  induction pairs with
  | nil => intro ini h; simpa using h
  | cons p rest ih =>
    intro ini h
    rw [List.foldl_cons]
    exact ih (stepWallet ini p) (stepWallet_fst_length_le ini p h)

/-- Claim C4: after an insertion the sent-id set is at most one over the 5000
cap before truncation, the step as a whole keeps it at or below the cap, and a
truncation keeps exactly the most recent 2500 ids (a length-2500 suffix of the
insertion-ordered list); the bound is preserved by whole poll cycles. -/
theorem c4_sentIds_bound :
    (∀ (sent : List String) (acc : List TradeEvent) (e : TradeEvent),
        sent.length ≤ SENT_CAP →
          (sent ++ [e.id]).length ≤ SENT_CAP + 1 ∧
            (admitEvent (sent, acc) e).1.length ≤ SENT_CAP ∧
            (e.id ∉ sent → SENT_CAP < (sent ++ [e.id]).length →
              (admitEvent (sent, acc) e).1 =
                  (sent ++ [e.id]).drop ((sent ++ [e.id]).length - SENT_KEEP) ∧
                (admitEvent (sent, acc) e).1.length = SENT_KEEP ∧
                (admitEvent (sent, acc) e).1.IsSuffix (sent ++ [e.id]))) ∧
      (∀ (wallets : List TrackedWallet) (fetch : String → Except Unit (List PolymarketTrade))
          (st : SSEState), st.lastSentIds.length ≤ SENT_CAP →
            (pollCycle wallets fetch st).1.lastSentIds.length ≤ SENT_CAP) := by
  constructor
  · intro sent acc e h
    refine ⟨by simp; omega, admitEvent_fst_length_le (sent, acc) e h, fun hm hlen => ?_⟩
    have hlen2 : SENT_CAP < sent.length + 1 := by simpa using hlen
    have heq : (admitEvent (sent, acc) e).1 =
        (sent ++ [e.id]).drop ((sent ++ [e.id]).length - SENT_KEEP) := by
      simp [admitEvent, hm, hlen2]
    refine ⟨heq, ?_, ?_⟩
    · rw [heq, List.length_drop]
      simp only [List.length_append, List.length_singleton] at hlen ⊢
      simp only [SENT_CAP, SENT_KEEP] at hlen ⊢
      omega
    · rw [heq]
      exact List.drop_suffix _ _
  · intro wallets fetch st h
    rw [pollCycle_eq_foldl]
    exact foldl_stepWallet_length_le _ (st, []) h

/-- Witness for C4: inserting into an empty set stays within the cap, and a
cycle from the initial state preserves the bound. -/
theorem c4_sentIds_bound_witness :
    (([] : List String).length ≤ SENT_CAP ∧
        (admitEvent (([] : List String), ([] : List TradeEvent)) c4event).1.length ≤ SENT_CAP) ∧
      (initialState.lastSentIds.length ≤ SENT_CAP ∧
        (pollCycle [] (fun _ => .ok []) initialState).1.lastSentIds.length ≤ SENT_CAP) :=
  ⟨⟨by decide, (c4_sentIds_bound.1 [] [] c4event (by decide)).2.1⟩,
    ⟨by decide, c4_sentIds_bound.2 [] (fun _ => .ok []) initialState (by decide)⟩⟩

theorem foldl_admitEvent_snd_subset :
    ∀ (evs : List TradeEvent) (ini : List String × List TradeEvent) (e : TradeEvent),
      e ∈ (evs.foldl admitEvent ini).2 → e ∈ ini.2 ∨ e ∈ evs := by
  intro evs
  induction evs with
  | nil => intro ini e h; exact Or.inl h
  | cons x rest ih =>
    intro ini e h
    rw [List.foldl_cons] at h
    rcases ih (admitEvent ini x) e h with h1 | h1
    · by_cases hx : x.id ∈ ini.1
      · have hstep : admitEvent ini x = ini := by simp [admitEvent, hx]
        rw [hstep] at h1
        exact Or.inl h1
      · have hstep : (admitEvent ini x).2 = ini.2 ++ [x] := by simp [admitEvent, hx]
        rw [hstep] at h1
        rcases List.mem_append.mp h1 with h2 | h2
        · exact Or.inl h2
        · have : e = x := List.mem_singleton.mp h2
          subst this
          exact Or.inr (List.mem_cons_self _ _)
    · exact Or.inr (List.mem_cons_of_mem x h1)

theorem mem_freshEvents_lt (st : SSEState) (w : TrackedWallet) (trades : List PolymarketTrade)
    (e : TradeEvent) (he : e ∈ freshEvents st w trades) :
    lookupWallet st.lastSeenByWallet w.wallet < e.timestampMs := by
  have h := (List.mem_filter.mp he).2
  simpa using h

theorem stepWallet_snd_subset (ini : SSEState × List TradeEvent)
    (wt : TrackedWallet × List PolymarketTrade) (e : TradeEvent)
    (h : e ∈ (stepWallet ini wt).2) :
    e ∈ ini.2 ∨ e ∈ freshEvents ini.1 wt.1 wt.2 := by
  by_cases hf : (freshEvents ini.1 wt.1 wt.2).isEmpty = true
  · left
    simpa [stepWallet, hf] using h
  · simp only [stepWallet, hf, if_false, ite_false] at h
    exact foldl_admitEvent_snd_subset _ _ _ h

theorem lookupWallet_setWallet_self :
    ∀ (m : List (String × Int)) (w : String) (v : Int), lookupWallet (setWallet m w v) w = v := by
  intro m
  induction m with
  | nil => intro w v; simp [setWallet, lookupWallet]
  | cons kv rest ih =>
    obtain ⟨k, x⟩ := kv
    intro w v
    by_cases hk : k = w
    · simp [setWallet, hk, lookupWallet]
    · simp [setWallet, hk, lookupWallet, ih]

theorem lookupWallet_setWallet_ne :
    ∀ (m : List (String × Int)) (w : String) (v : Int) (a : String), a ≠ w →
      lookupWallet (setWallet m w v) a = lookupWallet m a := by
  intro m
  induction m with
  | nil => intro w v a ha; simp [setWallet, lookupWallet, Ne.symm ha]
  | cons kv rest ih =>
    obtain ⟨k, x⟩ := kv
    intro w v a ha
    by_cases hk : k = w
    · subst hk
      simp [setWallet, lookupWallet, Ne.symm ha]
    · simp only [setWallet, hk, if_false, ite_false]
      by_cases hka : k = a
      · subst hka
        simp [lookupWallet]
      · simp [lookupWallet, hka, ih w v a ha]

theorem foldl_max_init_le :
    ∀ (l : List TradeEvent) (i : Int), i ≤ l.foldl (fun m x => max m x.timestampMs) i := by
  intro l
  induction l with
  | nil => intro i; exact le_rfl
  | cons x rest ih =>
    intro i
    exact le_trans (le_max_left _ _) (ih (max i x.timestampMs))

theorem foldl_max_mem_le :
    ∀ (l : List TradeEvent) (i : Int) (e : TradeEvent), e ∈ l →
      e.timestampMs ≤ l.foldl (fun m x => max m x.timestampMs) i := by
  intro l
  induction l with
  | nil => intro i e he; cases he
  | cons x rest ih =>
    intro i e he
    rcases List.mem_cons.mp he with rfl | h
    · exact le_trans (le_max_right _ _) (foldl_max_init_le rest (max i e.timestampMs))
    · exact ih _ e h

theorem maxTs_mem_le (l : List TradeEvent) (e : TradeEvent) (he : e ∈ l) :
    e.timestampMs ≤ maxTs l := by
  cases l with
  | nil => cases he
  | cons x rest =>
    simp only [maxTs]
    rcases List.mem_cons.mp he with rfl | h
    · exact foldl_max_init_le rest e.timestampMs
    · exact foldl_max_mem_le rest x.timestampMs e h

theorem stepWallet_lastSeen_mono (ini : SSEState × List TradeEvent)
    (wt : TrackedWallet × List PolymarketTrade) (a : String) :
    lookupWallet ini.1.lastSeenByWallet a ≤
      lookupWallet (stepWallet ini wt).1.lastSeenByWallet a := by
  cases hf : freshEvents ini.1 wt.1 wt.2 with
  | nil =>
    have hni : (freshEvents ini.1 wt.1 wt.2).isEmpty = true := by rw [hf]; rfl
    simp [stepWallet, hni]
  | cons f fs =>
    have hni : ¬(freshEvents ini.1 wt.1 wt.2).isEmpty = true := by rw [hf]; simp
    simp only [stepWallet, hni, if_false, ite_false, Bool.false_eq_true]
    by_cases ha : a = wt.1.wallet
    · subst ha
      rw [lookupWallet_setWallet_self]
      have hft : f ∈ freshEvents ini.1 wt.1 wt.2 := by rw [hf]; exact List.mem_cons_self _ _
      have h1 := mem_freshEvents_lt ini.1 wt.1 wt.2 f hft
      have h2 := maxTs_mem_le _ f hft
      omega
    · rw [lookupWallet_setWallet_ne _ _ _ _ ha]

theorem foldl_stepWallet_lastSeen_mono :
    ∀ (pairs : List (TrackedWallet × List PolymarketTrade)) (ini : SSEState × List TradeEvent)
      (a : String),
      lookupWallet ini.1.lastSeenByWallet a ≤
        lookupWallet ((pairs.foldl stepWallet ini).1).lastSeenByWallet a := by
  intro pairs
  induction pairs with
  | nil => intro ini a; exact le_rfl
  | cons p rest ih =>
    intro ini a
    rw [List.foldl_cons]
    exact le_trans (stepWallet_lastSeen_mono ini p a) (ih (stepWallet ini p) a)

theorem stepWallet_fresh_le (ini : SSEState × List TradeEvent)
    (wt : TrackedWallet × List PolymarketTrade) (e : TradeEvent)
    (he : e ∈ freshEvents ini.1 wt.1 wt.2) :
    e.timestampMs ≤ lookupWallet (stepWallet ini wt).1.lastSeenByWallet wt.1.wallet := by
  have hni : ¬(freshEvents ini.1 wt.1 wt.2).isEmpty = true := by
    cases hf : freshEvents ini.1 wt.1 wt.2
    · rw [hf] at he; cases he
    · simp
  simp only [stepWallet, hni, if_false, ite_false, Bool.false_eq_true]
  rw [lookupWallet_setWallet_self]
  exact maxTs_mem_le _ e he

theorem foldl_stepWallet_mem_snd :
    ∀ (pairs : List (TrackedWallet × List PolymarketTrade)) (ini : SSEState × List TradeEvent)
      (e : TradeEvent), e ∈ (pairs.foldl stepWallet ini).2 →
        e ∈ ini.2 ∨ ∃ p ∈ pairs,
          e.timestampMs ≤
            lookupWallet ((pairs.foldl stepWallet ini).1).lastSeenByWallet p.1.wallet := by
  intro pairs
  induction pairs with
  | nil => intro ini e h; exact Or.inl h
  | cons p rest ih =>
    intro ini e h
    rw [List.foldl_cons] at h
    rcases ih (stepWallet ini p) e h with h1 | ⟨q, hq, hle⟩
    · rcases stepWallet_snd_subset ini p e h1 with h2 | h2
      · exact Or.inl h2
      · right
        refine ⟨p, List.mem_cons_self _ _, ?_⟩
        have h3 := stepWallet_fresh_le ini p e h2
        have h4 := foldl_stepWallet_lastSeen_mono rest (stepWallet ini p) p.1.wallet
        rw [List.foldl_cons]
        omega
    · right
      refine ⟨q, List.mem_cons_of_mem _ hq, ?_⟩
      rw [List.foldl_cons]
      exact hle

/-- Claim C10: with zero viewers the events frame is not written, the state
update (watermarks and sent ids) is the same as with any viewer count, any
written frame is a permutation of the current cycle's admitted events only,
and every admitted event is recorded as seen in some tracked wallet's final
watermark. -/
theorem c10_no_viewers (wallets : List TrackedWallet)
    (fetch : String → Except Unit (List PolymarketTrade)) (st : SSEState) :
    (cycleOutput 0 wallets fetch st).2 = [] ∧
      (∀ c, (cycleOutput c wallets fetch st).1 = (pollCycle wallets fetch st).1) ∧
      (∀ c, (cycleOutput c wallets fetch st).2 = [] ∨
        (cycleOutput c wallets fetch st).2.Perm (pollCycle wallets fetch st).2) ∧
      (∀ e ∈ (pollCycle wallets fetch st).2, ∃ w ∈ wallets,
        e.timestampMs ≤
          lookupWallet (pollCycle wallets fetch st).1.lastSeenByWallet w.wallet) := by
  refine ⟨?_, fun c => rfl, fun c => ?_, fun e he => ?_⟩
  · simp [cycleOutput, deliveredFrame]
  · by_cases hg : (pollCycle wallets fetch st).2 ≠ [] ∧ c ≠ 0
    · right
      simp only [cycleOutput, deliveredFrame, sortEvents]
      rw [if_pos hg]
      exact List.perm_insertionSort tsle _
    · left
      simp only [cycleOutput, deliveredFrame]
      rw [if_neg hg]
  · rw [pollCycle_eq_foldl] at he ⊢
    rcases foldl_stepWallet_mem_snd _ (st, []) e he with h1 | ⟨p, hp, hle⟩
    · cases h1
    · rcases List.mem_map.mp hp with ⟨w, hw, rfl⟩
      exact ⟨w, hw, hle⟩

theorem foldl_congr_fn {α β : Type} :
    ∀ (l : List α) (f g : β → α → β), (∀ x ∈ l, ∀ acc, f acc x = g acc x) →
      ∀ b, l.foldl f b = l.foldl g b := by
  intro l
  induction l with
  | nil => intro f g h b; rfl
  | cons x rest ih =>
    intro f g h b
    rw [List.foldl_cons, List.foldl_cons, h x (List.mem_cons_self _ _)]
    exact ih f g (fun y hy acc => h y (List.mem_cons_of_mem _ hy) acc) _

/-- Claim C9 counterexample: with the sheet address 0xAB, the server cycle
admits an event whose wallet field is the mixed-case 0xAB, the lowercased form
differs, and the fetch keyed by the lowercased address has no trades at all —
so the fetch input was the verbatim, non-lowercased address. -/
theorem c9_counterexample :
    (pollCycle [c9wallet] c9fetch initialState).2.map TradeEvent.wallet = ["0xAB"] ∧
      jsToLowerCase "0xAB" ≠ "0xAB" ∧
      fetchOrEmpty c9fetch (jsToLowerCase "0xAB") = [] :=
  ⟨by decide, by decide, by decide⟩

/-- Claim C9 (amended): only the client pull variant lowercases wallet
addresses before fetching (its cycle depends on the fetch only at the
lowercased addresses); the server push variant passes the sheet address
verbatim (its cycle depends on the fetch only at the verbatim addresses), and
the produced TradeEvent carries the API-provided proxyWallet casing
unchanged. -/
theorem c9_amended :
    (∀ (wallets : List Page.WalletRow) (fetch fetch2 : String → Except Unit (List Page.Trade))
        (mode : Page.TrackMode) (mE : Bool) (mU : Rat) (seen : Page.Seen),
        (∀ w ∈ wallets, fetch (jsToLowerCase w.wallet) = fetch2 (jsToLowerCase w.wallet)) →
          Page.pollOnce wallets fetch mode mE mU seen =
            Page.pollOnce wallets fetch2 mode mE mU seen) ∧
      (∀ (wallets : List TrackedWallet)
          (fetch fetch2 : String → Except Unit (List PolymarketTrade)) (st : SSEState),
          (∀ w ∈ wallets, fetch w.wallet = fetch2 w.wallet) →
            pollCycle wallets fetch st = pollCycle wallets fetch2 st) ∧
      (∀ (t : PolymarketTrade) (tr : String), (toTradeEvent t tr).wallet = t.proxyWallet) := by
  refine ⟨?_, ?_, fun t tr => rfl⟩
  · intro wallets fetch fetch2 mode mE mU seen hagree
    unfold Page.pollOnce
    apply foldl_congr_fn
    intro r hr acc
    rcases List.mem_map.mp hr with ⟨w, hw, rfl⟩
    dsimp only [Page.pollWallet]
    rw [hagree w hw]
  · intro wallets fetch fetch2 st hagree
    apply pollCycle_fetch_congr
    intro w hw
    unfold fetchOrEmpty
    rw [hagree w hw]

/-- Witness for the amended C9: a client cycle is unchanged when the fetch is
altered away from the lowercased addresses, a server cycle is unchanged when
the fetch is altered away from the verbatim addresses, and the event wallet
equals the trade's proxyWallet. -/
theorem c9_amended_witness :
    Page.pollOnce [⟨"N", "W"⟩] (fun a => if a = "w" then .ok [] else .error ())
        Page.TrackMode.BOTH true 500 [] =
      Page.pollOnce [⟨"N", "W"⟩] (fun a => if a = "w" then .ok [] else .ok [c9pageTrade])
        Page.TrackMode.BOTH true 500 [] ∧
      pollCycle [c9wallet] c9fetch initialState =
        pollCycle [c9wallet] (fun a => if a = "0xzz" then .ok [] else c9fetch a) initialState ∧
      (toTradeEvent c9trade "T").wallet = c9trade.proxyWallet :=
  ⟨c9_amended.1 [⟨"N", "W"⟩] _ _ Page.TrackMode.BOTH true 500 []
      (fun w hw => by obtain rfl := List.mem_singleton.mp hw; rfl),
    c9_amended.2.1 [c9wallet] _ _ initialState
      (fun w hw => by obtain rfl := List.mem_singleton.mp hw; rfl),
    c9_amended.2.2 c9trade "T"⟩

/-- Every key marked during priming is in the primed store: for a wallet in
the list whose (lowercased) fetch succeeds, all returned trade keys are
present. -/
theorem primeSeen_marks :
    ∀ (wallets : List Page.WalletRow) (fetch : String → Except Unit (List Page.Trade))
      (seen0 : Page.Seen) (w : Page.WalletRow) (trades : List Page.Trade),
      w ∈ wallets → fetch (jsToLowerCase w.wallet) = .ok trades →
        ∀ t ∈ trades,
          (jsToLowerCase w.wallet, Page.keyForTrade t) ∈ Page.primeSeen wallets fetch seen0 := by
  have hmono : ∀ (wallets : List Page.WalletRow) (fetch : String → Except Unit (List Page.Trade))
      (seen : Page.Seen) (p : String × String), p ∈ seen →
        p ∈ Page.primeSeen wallets fetch seen := by
    intro wallets
    induction wallets with
    | nil => intro fetch seen p hp; exact hp
    | cons v rest ih =>
      intro fetch seen p hp
      apply ih
      cases hfv : fetch (jsToLowerCase v.wallet) with
      | error e => simpa [Page.primeWallet, hfv] using hp
      | ok trades =>
        simp only [Page.primeWallet, hfv]
        exact List.mem_append_left _ hp
  intro wallets
  induction wallets with
  | nil => intro fetch seen0 w trades hw; cases hw
  | cons v rest ih =>
    intro fetch seen0 w trades hw hfetch t ht
    rcases List.mem_cons.mp hw with rfl | hw2
    · apply hmono rest fetch _ _
      simp only [Page.primeWallet, hfetch]
      exact List.mem_append_right _ (List.mem_map.mpr ⟨t, ht, rfl⟩)
    · exact ih fetch _ w trades hw2 hfetch t ht

/-- A run of per-trade steps over trades whose keys are all already seen
changes nothing. -/
theorem foldl_pollTrade_allseen :
    ∀ (trades : List Page.Trade) (mode : Page.TrackMode) (mE : Bool) (mU : Rat) (wallet : String)
      (acc : Page.Seen × List (String × Page.Trade)),
      (∀ t ∈ trades, (wallet, Page.keyForTrade t) ∈ acc.1) →
        trades.foldl (Page.pollTrade mode mE mU wallet) acc = acc := by
  intro trades
  induction trades with
  | nil => intro mode mE mU wallet acc h; rfl
  | cons t rest ih =>
    intro mode mE mU wallet acc h
    rw [List.foldl_cons]
    have hstep : Page.pollTrade mode mE mU wallet acc t = acc := by
      have hm := h t (List.mem_cons_self _ _)
      simp [Page.pollTrade, hm]
    rw [hstep]
    exact ih mode mE mU wallet acc (fun u hu => h u (List.mem_cons_of_mem _ hu))

/-- A run of per-wallet steps over rows whose successful fetches return only
already-seen trades changes nothing. -/
theorem foldl_pollWallet_allseen :
    ∀ (rows : List Page.WalletRow) (fetch : String → Except Unit (List Page.Trade))
      (mode : Page.TrackMode) (mE : Bool) (mU : Rat)
      (acc : Page.Seen × List (String × Page.Trade)),
      (∀ r ∈ rows, ∀ trades, fetch r.wallet = .ok trades →
        ∀ t ∈ trades, (r.wallet, Page.keyForTrade t) ∈ acc.1) →
        rows.foldl (Page.pollWallet fetch mode mE mU) acc = acc := by
  intro rows
  induction rows with
  | nil => intro fetch mode mE mU acc h; rfl
  | cons r rest ih =>
    intro fetch mode mE mU acc h
    rw [List.foldl_cons]
    have hstep : Page.pollWallet fetch mode mE mU acc r = acc := by
      unfold Page.pollWallet
      cases hfr : fetch r.wallet with
      | error e => rfl
      | ok trades =>
        exact foldl_pollTrade_allseen trades mode mE mU r.wallet acc
          (h r (List.mem_cons_self _ _) trades hfr)
    rw [hstep]
    exact ih fetch mode mE mU acc (fun q hq => h q (List.mem_cons_of_mem _ hq))

/-- Claim C1 counterexample: the server poll loop performs no priming pass.
On its very first cycle, with one viewer attached and one historical trade
already upstream, the viewer receives an events frame containing that
pre-existing trade. -/
theorem c1_counterexample :
    deliveredFrame 1 (pollCycle [c1wallet] c1fetch initialState).2 =
      [toTradeEvent c1trade "T"] := by
  decide

/-- Claim C1 (amended): priming exists only in the client pull variant. There,
after `primeSeen` runs against the same upstream, a poll cycle announces
nothing; and if the upstream then returns exactly one additional unseen trade
(passing the side and min-USD filters), exactly that one trade is announced.
The server push variant has no priming and its first cycle delivers the whole
fetch window (see the counterexample). -/
theorem c1_amended :
    (∀ (wallets : List Page.WalletRow) (fetch : String → Except Unit (List Page.Trade))
        (mode : Page.TrackMode) (mE : Bool) (mU : Rat),
        (Page.pollOnce wallets fetch mode mE mU (Page.primeSeen wallets fetch [])).2 = []) ∧
      (∀ (name wallet : String) (fetch fetch2 : String → Except Unit (List Page.Trade))
          (tnew : Page.Trade) (old : List Page.Trade) (mode : Page.TrackMode) (mE : Bool)
          (mU : Rat),
          fetch (jsToLowerCase wallet) = .ok old →
          fetch2 (jsToLowerCase wallet) = .ok (tnew :: old) →
          Page.keyForTrade tnew ∉ old.map Page.keyForTrade →
          Page.shouldTrackSide mode tnew.side = true →
          Page.passesMinUsdFilter mE mU tnew = true →
            (Page.pollOnce [⟨name, wallet⟩] fetch2 mode mE mU
                (Page.primeSeen [⟨name, wallet⟩] fetch [])).2 =
              [(jsToLowerCase wallet, tnew)]) := by
  constructor
  · intro wallets fetch mode mE mU
    have H : ∀ r ∈ Page.lowerRows wallets, ∀ trades, fetch r.wallet = .ok trades →
        ∀ t ∈ trades, (r.wallet, Page.keyForTrade t) ∈
          ((Page.primeSeen wallets fetch [], ([] : List (String × Page.Trade)))).1 := by
      intro r hr trades hft t ht
      rcases List.mem_map.mp hr with ⟨w, hw, rfl⟩
      exact primeSeen_marks wallets fetch [] w trades hw hft t ht
    unfold Page.pollOnce
    rw [foldl_pollWallet_allseen (Page.lowerRows wallets) fetch mode mE mU _ H]
  · intro name wallet fetch fetch2 tnew old mode mE mU hf hf2 hkey hside hfilter
    have hseen : Page.primeSeen [⟨name, wallet⟩] fetch [] =
        old.map (fun t => (jsToLowerCase wallet, Page.keyForTrade t)) := by
      simp [Page.primeSeen, Page.primeWallet, hf]
    have hnotseen : (jsToLowerCase wallet, Page.keyForTrade tnew) ∉
        Page.primeSeen [⟨name, wallet⟩] fetch [] := by
      rw [hseen]
      intro hmem
      rcases List.mem_map.mp hmem with ⟨t, ht, heq⟩
      have : Page.keyForTrade t = Page.keyForTrade tnew := congrArg Prod.snd heq
      exact hkey (List.mem_map.mpr ⟨t, ht, this⟩)
    unfold Page.pollOnce
    simp only [Page.lowerRows, List.map_cons, List.map_nil, List.foldl_cons, List.foldl_nil,
      Page.pollWallet, hf2]
    have hstep : Page.pollTrade mode mE mU (jsToLowerCase wallet)
        (Page.primeSeen [⟨name, wallet⟩] fetch [], []) tnew =
        (Page.primeSeen [⟨name, wallet⟩] fetch [] ++
            [(jsToLowerCase wallet, Page.keyForTrade tnew)],
          [(jsToLowerCase wallet, tnew)]) := by
      simp [Page.pollTrade, hside, hfilter, hnotseen]
    rw [hstep]
    have hrest : old.foldl (Page.pollTrade mode mE mU (jsToLowerCase wallet))
        (Page.primeSeen [⟨name, wallet⟩] fetch [] ++
            [(jsToLowerCase wallet, Page.keyForTrade tnew)],
          [(jsToLowerCase wallet, tnew)]) =
        (Page.primeSeen [⟨name, wallet⟩] fetch [] ++
            [(jsToLowerCase wallet, Page.keyForTrade tnew)],
          [(jsToLowerCase wallet, tnew)]) := by
      apply foldl_pollTrade_allseen
      intro t ht
      exact List.mem_append_left _ (by rw [hseen]; exact List.mem_map.mpr ⟨t, ht, rfl⟩)
    rw [hrest]

/-- Witness for the amended C1: one wallet with one historical trade; after
priming, polling the unchanged upstream announces nothing, and polling an
upstream extended by one newer trade announces exactly that trade. -/
theorem c1_amended_witness :
    (Page.pollOnce [⟨"N", "w"⟩] c1pageFetch Page.TrackMode.BOTH false 0
        (Page.primeSeen [⟨"N", "w"⟩] c1pageFetch [])).2 = [] ∧
      (Page.pollOnce [⟨"N", "w"⟩] c1pageFetch2 Page.TrackMode.BOTH false 0
          (Page.primeSeen [⟨"N", "w"⟩] c1pageFetch [])).2 =
        [(jsToLowerCase "w", c1pageNew)] :=
  ⟨c1_amended.1 [⟨"N", "w"⟩] c1pageFetch Page.TrackMode.BOTH false 0,
    c1_amended.2 "N" "w" c1pageFetch c1pageFetch2 c1pageNew [c1pageOld] Page.TrackMode.BOTH
      false 0 rfl rfl (by decide) rfl rfl⟩

theorem uStr_length (n : Nat) : (uStr n).length = n := by
  simp [uStr, String.length]

theorem uStr_ne_empty (n : Nat) : uStr (n + 1) ≠ "" := by
  intro h
  have h1 := uStr_length (n + 1)
  rw [h] at h1
  rw [show ("" : String).length = 0 from rfl] at h1
  omega

theorem c2floodEvent_id (i : Nat) : (c2floodEvent i).id = c2bId i := by
  have h := uStr_ne_empty i
  simp [c2floodEvent, toTradeEvent, c2bId, c2flood, h]

theorem c2floodEvent_ts (i : Nat) : (c2floodEvent i).timestampMs = (i : Int) + 1 := rfl

theorem c2bId_data (i : Nat) : (c2bId i).data = 'b' :: ':' :: List.replicate (i + 1) 'u' := by
  show ("b" ++ ":" ++ uStr (i + 1)).data = _
  rw [String.data_append, String.data_append]
  rfl

theorem c2bId_length (i : Nat) : (c2bId i).length = i + 3 := by
  have h := c2bId_data i
  simp only [String.length, h, List.length_cons, List.length_replicate]

theorem c2bId_inj : Function.Injective c2bId := by
  intro i j h
  have h1 := c2bId_length i
  have h2 := c2bId_length j
  rw [h] at h1
  omega

theorem c2bId_ne_aId (i : Nat) : c2bId i ≠ c2aId := by
  intro h
  have hd := congrArg String.data h
  rw [c2bId_data] at hd
  rw [show c2aId.data = ['a', ':', 't'] from rfl] at hd
  simp at hd

theorem c2aId_not_mem_bIds (n : Nat) : c2aId ∉ (List.range n).map c2bId := by
  intro h
  rcases List.mem_map.mp h with ⟨i, _, heq⟩
  exact c2bId_ne_aId i heq

theorem c2bIds_nodup (n : Nat) : ((List.range n).map c2bId).Nodup :=
  List.Nodup.map c2bId_inj (List.nodup_range n)

/-- Folding the admit step over events that are all unseen and fit under the
cap appends their ids (in order) and admits them all. -/
theorem foldl_admitEvent_all_new :
    ∀ (evs : List TradeEvent) (sent : List String) (acc : List TradeEvent),
      (∀ e ∈ evs, e.id ∉ sent) → (evs.map TradeEvent.id).Nodup →
      sent.length + evs.length ≤ SENT_CAP →
        evs.foldl admitEvent (sent, acc) = (sent ++ evs.map TradeEvent.id, acc ++ evs) := by
  intro evs
  induction evs with
  | nil => intro sent acc h1 h2 h3; simp
  | cons e rest ih =>
    intro sent acc h1 h2 h3
    rw [List.foldl_cons]
    have hm : e.id ∉ sent := h1 e (List.mem_cons_self _ _)
    have hnc : (∀ x ∈ rest, ¬x.id = e.id) ∧ (List.map TradeEvent.id rest).Nodup := by
      simpa using h2
    have hstep : admitEvent (sent, acc) e = (sent ++ [e.id], acc ++ [e]) := by
      have hlen : ¬SENT_CAP < sent.length + 1 := by
        simp only [List.length_cons] at h3
        omega
      simp [admitEvent, hm, hlen]
    rw [hstep]
    have h1r : ∀ x ∈ rest, x.id ∉ sent ++ [e.id] := by
      intro x hx hmem
      rcases List.mem_append.mp hmem with hs | hs
      · exact h1 x (List.mem_cons_of_mem _ hx) hs
      · exact hnc.1 x hx (List.mem_singleton.mp hs)
    have h3r : (sent ++ [e.id]).length + rest.length ≤ SENT_CAP := by
      simp only [List.length_append, List.length_singleton]
      simp only [List.length_cons] at h3
      omega
    rw [ih (sent ++ [e.id]) (acc ++ [e]) h1r hnc.2 h3r]
    simp

/-- Witness for C10: one admitted event with zero viewers; nothing is written,
yet the event is covered by the final watermark of its tracked wallet. -/
theorem c10_no_viewers_witness :
    (cycleOutput 0 [c10wallet] c10fetch initialState).2 = [] ∧
      toTradeEvent c10trade "T" ∈ (pollCycle [c10wallet] c10fetch initialState).2 ∧
      ∃ w ∈ [c10wallet], (toTradeEvent c10trade "T").timestampMs ≤
        lookupWallet (pollCycle [c10wallet] c10fetch initialState).1.lastSeenByWallet w.wallet :=
  ⟨(c10_no_viewers [c10wallet] c10fetch initialState).1, by decide,
    (c10_no_viewers [c10wallet] c10fetch initialState).2.2.2 (toTradeEvent c10trade "T")
      (by decide)⟩

theorem admitEvent_snd_of_not_mem (s : List String) (acc : List TradeEvent) (e : TradeEvent)
    (h : e.id ∉ s) : (admitEvent (s, acc) e).2 = acc ++ [e] := by
  simp [admitEvent, h]

theorem admitEvent_evict (sent : List String) (acc : List TradeEvent) (e : TradeEvent)
    (hm : e.id ∉ sent) (hc : SENT_CAP < sent.length + 1) :
    admitEvent (sent, acc) e =
      ((sent ++ [e.id]).drop (sent.length + 1 - SENT_KEEP), acc ++ [e]) := by
  simp [admitEvent, hm, hc]

theorem foldl_admitEvent_snd_extends :
    ∀ (evs : List TradeEvent) (ini : List String × List TradeEvent),
      ∃ extra, (evs.foldl admitEvent ini).2 = ini.2 ++ extra := by
  intro evs
  induction evs with
  | nil => intro ini; exact ⟨[], by simp⟩
  | cons e rest ih =>
    intro ini
    rw [List.foldl_cons]
    by_cases hm : e.id ∈ ini.1
    · have hstep : admitEvent ini e = ini := by simp [admitEvent, hm]
      rw [hstep]
      exact ih ini
    · rcases ih (admitEvent ini e) with ⟨extra, hx⟩
      have hstep : (admitEvent ini e).2 = ini.2 ++ [e] := by simp [admitEvent, hm]
      rw [hstep] at hx
      exact ⟨[e] ++ extra, by rw [hx, List.append_assoc]⟩

theorem c2_floodEvents_ne_nil : c2floodEvents ≠ [] := by
  unfold c2floodEvents
  simp

theorem c2_step1 :
    stepWallet (initialState, []) (c2walletA, [c2tradeOne]) = (c2state1, [c2eventOne]) := by
  decide

theorem c2_freshB : freshEvents c2state1 c2walletB c2floodTrades = c2floodEvents := by
  have hall : ∀ e ∈ c2floodTrades.map (fun t => toTradeEvent t c2walletB.trader),
      decide (lookupWallet c2state1.lastSeenByWallet c2walletB.wallet < e.timestampMs) = true := by
    intro e he
    rcases List.mem_map.mp he with ⟨t, ht, rfl⟩
    rcases List.mem_map.mp ht with ⟨i, hi, rfl⟩
    simp only [decide_eq_true_eq]
    rw [show lookupWallet c2state1.lastSeenByWallet c2walletB.wallet = 0 from rfl]
    rw [show (toTradeEvent (c2flood i) c2walletB.trader).timestampMs = (i : Int) + 1 from rfl]
    omega
  unfold freshEvents
  rw [List.filter_eq_self.mpr hall]
  unfold c2floodTrades c2floodEvents
  rw [List.map_map]
  rfl

theorem c2_freshB_not_isEmpty :
    ¬(freshEvents c2state1 c2walletB c2floodTrades).isEmpty = true := by
  rw [c2_freshB]
  simp [List.isEmpty_iff, c2_floodEvents_ne_nil]

theorem c2sentB_eq : List.drop 2500 (List.map c2bId (List.range 5000)) = c2sentB := rfl

theorem c2_inner_fst :
    (c2floodEvents.foldl admitEvent ([c2aId], [c2eventOne])).1 = c2sentB := by
  have hsplit : c2floodEvents = (List.range 4999).map c2floodEvent ++ [c2floodEvent 4999] := by
    unfold c2floodEvents
    rw [show (5000 : Nat) = 4999 + 1 from rfl, List.range_succ, List.map_append,
      List.map_singleton]
  have hids : ((List.range 4999).map c2floodEvent).map TradeEvent.id =
      (List.range 4999).map c2bId := by
    rw [List.map_map]
    exact List.map_congr_left (fun i _ => c2floodEvent_id i)
  have h1 : ∀ e ∈ (List.range 4999).map c2floodEvent, e.id ∉ [c2aId] := by
    intro e he hmem
    rcases List.mem_map.mp he with ⟨i, hi, rfl⟩
    rw [c2floodEvent_id i] at hmem
    exact c2bId_ne_aId i (List.mem_singleton.mp hmem)
  have h2 : (((List.range 4999).map c2floodEvent).map TradeEvent.id).Nodup := by
    rw [hids]
    exact c2bIds_nodup 4999
  have h3 : ([c2aId] : List String).length + ((List.range 4999).map c2floodEvent).length ≤
      SENT_CAP := by
    simp [SENT_CAP]
  rw [hsplit, List.foldl_append]
  rw [foldl_admitEvent_all_new _ _ _ h1 h2 h3, hids]
  rw [List.foldl_cons, List.foldl_nil]
  have hnotmem : (c2floodEvent 4999).id ∉ [c2aId] ++ (List.range 4999).map c2bId := by
    rw [c2floodEvent_id]
    intro hmem
    rcases List.mem_append.mp hmem with hs | hs
    · exact c2bId_ne_aId 4999 (List.mem_singleton.mp hs)
    · rcases List.mem_map.mp hs with ⟨j, hj, heq⟩
      have hji := c2bId_inj heq
      have := List.mem_range.mp hj
      omega
  have hcap : SENT_CAP < ([c2aId] ++ (List.range 4999).map c2bId).length + 1 := by
    simp [SENT_CAP]
  rw [admitEvent_evict _ _ _ hnotmem hcap]
  have hs2 : ([c2aId] ++ (List.range 4999).map c2bId) ++ [(c2floodEvent 4999).id] =
      c2aId :: (List.range 5000).map c2bId := by
    rw [c2floodEvent_id]
    conv_rhs => rw [show (5000 : Nat) = 4999 + 1 from rfl, List.range_succ 4999,
      List.map_append, List.map_singleton]
    rw [List.append_assoc, List.singleton_append]
  have hlen : ([c2aId] ++ (List.range 4999).map c2bId).length + 1 - SENT_KEEP = 2500 + 1 := by
    simp only [List.length_append, List.length_singleton, List.length_map, List.length_range,
      SENT_KEEP]
  rw [hs2, hlen, List.drop_succ_cons]
  dsimp only
  rw [c2sentB_eq]

theorem stepWallet_eq_cons (st : SSEState) (acc : List TradeEvent) (w : TrackedWallet)
    (trades : List PolymarketTrade) (h : ¬(freshEvents st w trades).isEmpty = true) :
    stepWallet (st, acc) (w, trades) =
      (⟨setWallet st.lastSeenByWallet w.wallet (maxTs (freshEvents st w trades)),
          ((freshEvents st w trades).foldl admitEvent (st.lastSentIds, acc)).1⟩,
        ((freshEvents st w trades).foldl admitEvent (st.lastSentIds, acc)).2) := by
  simp [stepWallet, h]

theorem stepWallet_sent_eq_cons (st : SSEState) (acc : List TradeEvent) (w : TrackedWallet)
    (trades : List PolymarketTrade) (h : ¬(freshEvents st w trades).isEmpty = true) :
    (stepWallet (st, acc) (w, trades)).1.lastSentIds =
      ((freshEvents st w trades).foldl admitEvent (st.lastSentIds, acc)).1 := by
  rw [stepWallet_eq_cons st acc w trades h]

theorem stepWallet_seen_eq_cons (st : SSEState) (acc : List TradeEvent) (w : TrackedWallet)
    (trades : List PolymarketTrade) (h : ¬(freshEvents st w trades).isEmpty = true) :
    (stepWallet (st, acc) (w, trades)).1.lastSeenByWallet =
      setWallet st.lastSeenByWallet w.wallet (maxTs (freshEvents st w trades)) := by
  rw [stepWallet_eq_cons st acc w trades h]

theorem stepWallet_events_eq_cons (st : SSEState) (acc : List TradeEvent) (w : TrackedWallet)
    (trades : List PolymarketTrade) (h : ¬(freshEvents st w trades).isEmpty = true) :
    (stepWallet (st, acc) (w, trades)).2 =
      ((freshEvents st w trades).foldl admitEvent (st.lastSentIds, acc)).2 := by
  rw [stepWallet_eq_cons st acc w trades h]

theorem c2_state1_sent : c2state1.lastSentIds = [c2aId] := rfl

theorem c2_stepB_fst_sent :
    (stepWallet (c2state1, [c2eventOne]) (c2walletB, c2floodTrades)).1.lastSentIds =
      c2sentB := by
  rw [stepWallet_sent_eq_cons c2state1 [c2eventOne] c2walletB c2floodTrades
    c2_freshB_not_isEmpty, c2_freshB, c2_state1_sent]
  exact c2_inner_fst

theorem c2_stepB_fst_lastSeenA :
    lookupWallet
      (stepWallet (c2state1, [c2eventOne]) (c2walletB, c2floodTrades)).1.lastSeenByWallet
      "a" = 100 := by
  rw [stepWallet_seen_eq_cons c2state1 [c2eventOne] c2walletB c2floodTrades
    c2_freshB_not_isEmpty]
  rw [lookupWallet_setWallet_ne _ _ _ _ (by decide : ("a" : String) ≠ c2walletB.wallet)]
  rfl

theorem c2_stepB_snd_mem :
    c2eventOne ∈ (stepWallet (c2state1, [c2eventOne]) (c2walletB, c2floodTrades)).2 := by
  rw [stepWallet_events_eq_cons c2state1 [c2eventOne] c2walletB c2floodTrades
    c2_freshB_not_isEmpty]
  rcases foldl_admitEvent_snd_extends (freshEvents c2state1 c2walletB c2floodTrades)
    (c2state1.lastSentIds, [c2eventOne]) with ⟨extra, hx⟩
  rw [hx]
  exact List.mem_append_left _ (List.mem_singleton_self _)

theorem c2_cycle1_eval :
    pollCycle [c2walletA, c2walletB] c2fetchOne initialState =
      stepWallet (c2state1, [c2eventOne]) (c2walletB, c2floodTrades) := by
  rw [pollCycle_eq_foldl]
  have hm1 : fetchOrEmpty c2fetchOne c2walletA.wallet = [c2tradeOne] := rfl
  have hm2 : fetchOrEmpty c2fetchOne c2walletB.wallet = c2floodTrades := by
    rw [show c2walletB.wallet = "b" from rfl]
    unfold fetchOrEmpty c2fetchOne
    rw [if_neg (by decide : ¬("b" : String) = "a"), if_pos (rfl : ("b" : String) = "b")]
  simp only [List.map_cons, List.map_nil]
  rw [hm1, hm2]
  rw [List.foldl_cons, List.foldl_cons, List.foldl_nil, c2_step1]

theorem c2_aId_not_in_sentB : c2aId ∉ c2sentB := by
  intro h
  exact c2aId_not_mem_bIds 5000 (List.mem_of_mem_drop h)

theorem c2_eventTwo_id : c2eventTwo.id = c2aId := rfl

theorem c2_cycle1_mem :
    c2eventOne ∈ (pollCycle [c2walletA, c2walletB] c2fetchOne initialState).2 := by
  rw [c2_cycle1_eval]
  exact c2_stepB_snd_mem

theorem c2_cycle1_lastSeenA :
    lookupWallet
      (pollCycle [c2walletA, c2walletB] c2fetchOne initialState).1.lastSeenByWallet "a" =
      100 := by
  rw [c2_cycle1_eval]
  exact c2_stepB_fst_lastSeenA

theorem c2_cycle1_sent :
    (pollCycle [c2walletA, c2walletB] c2fetchOne initialState).1.lastSentIds = c2sentB := by
  rw [c2_cycle1_eval]
  exact c2_stepB_fst_sent

theorem c2_cycle2_mem :
    c2eventTwo ∈ (pollCycle [c2walletA] c2fetchTwo
      (pollCycle [c2walletA, c2walletB] c2fetchOne initialState).1).2 := by
  rw [pollCycle_eq_foldl]
  simp only [List.map_cons, List.map_nil]
  rw [show fetchOrEmpty c2fetchTwo c2walletA.wallet = [c2tradeTwo] from rfl]
  rw [List.foldl_cons, List.foldl_nil]
  have hfresh : freshEvents (pollCycle [c2walletA, c2walletB] c2fetchOne initialState).1
      c2walletA [c2tradeTwo] = [c2eventTwo] := by
    unfold freshEvents
    rw [show c2walletA.trader = "A" from rfl, show c2walletA.wallet = "a" from rfl]
    rw [List.map_cons, List.map_nil]
    rw [show toTradeEvent c2tradeTwo "A" = c2eventTwo from rfl]
    rw [List.filter_eq_self.mpr]
    intro e he
    rw [List.mem_singleton.mp he]
    simp only [decide_eq_true_eq]
    rw [c2_cycle1_lastSeenA, show c2eventTwo.timestampMs = 200 from rfl]
    omega
  have hni : ¬(freshEvents (pollCycle [c2walletA, c2walletB] c2fetchOne initialState).1
      c2walletA [c2tradeTwo]).isEmpty = true := by
    rw [hfresh]
    simp
  rw [stepWallet_events_eq_cons _ [] c2walletA [c2tradeTwo] hni, hfresh]
  rw [List.foldl_cons, List.foldl_nil]
  have hnm : c2eventTwo.id ∉
      (pollCycle [c2walletA, c2walletB] c2fetchOne initialState).1.lastSentIds := by
    rw [c2_eventTwo_id, c2_cycle1_sent]
    exact c2_aId_not_in_sentB
  rw [admitEvent_snd_of_not_mem _ _ _ hnm]
  exact List.mem_append_right _ (List.mem_singleton_self _)

/-- Claim C2 counterexample: an event with id a:t is admitted and emitted in
cycle one; in the same cycle another wallet's 5000 distinct trades overflow
`lastSentIds`, whose truncation evicts a:t; in cycle two the fetch returns a
trade with the same identity (same proxy wallet and tx hash) bearing a newer
timestamp, which passes the watermark filter and, with its id evicted, is
admitted again. -/
theorem c2_counterexample :
    c2eventOne ∈ (pollCycle [c2walletA, c2walletB] c2fetchOne initialState).2 ∧
      c2eventTwo ∈ (pollCycle [c2walletA] c2fetchTwo
        (pollCycle [c2walletA, c2walletB] c2fetchOne initialState).1).2 ∧
      c2eventTwo.id = c2eventOne.id ∧ c2eventTwo ≠ c2eventOne :=
  ⟨c2_cycle1_mem, c2_cycle2_mem, rfl, by decide⟩

theorem stepWallet_trades_le (ini : SSEState × List TradeEvent)
    (wt : TrackedWallet × List PolymarketTrade) (t : PolymarketTrade) (ht : t ∈ wt.2) :
    t.timestamp ≤ lookupWallet (stepWallet ini wt).1.lastSeenByWallet wt.1.wallet := by
  by_cases hlt : lookupWallet ini.1.lastSeenByWallet wt.1.wallet < t.timestamp
  · have he : toTradeEvent t wt.1.trader ∈ freshEvents ini.1 wt.1 wt.2 := by
      unfold freshEvents
      refine List.mem_filter.mpr ⟨List.mem_map.mpr ⟨t, ht, rfl⟩, ?_⟩
      simp only [toTradeEvent_timestampMs, decide_eq_true_eq]
      exact hlt
    have h2 := stepWallet_fresh_le ini wt _ he
    rw [toTradeEvent_timestampMs] at h2
    exact h2
  · push_neg at hlt
    exact le_trans hlt (stepWallet_lastSeen_mono ini wt _)

theorem foldl_stepWallet_trades_le :
    ∀ (pairs : List (TrackedWallet × List PolymarketTrade)) (ini : SSEState × List TradeEvent)
      (w : TrackedWallet) (trades : List PolymarketTrade) (t : PolymarketTrade),
      (w, trades) ∈ pairs → t ∈ trades →
        t.timestamp ≤
          lookupWallet ((pairs.foldl stepWallet ini).1).lastSeenByWallet w.wallet := by
  intro pairs
  induction pairs with
  | nil => intro ini w trades t hp; cases hp
  | cons p rest ih =>
    intro ini w trades t hp ht
    rw [List.foldl_cons]
    rcases List.mem_cons.mp hp with rfl | hp2
    · have h1 := stepWallet_trades_le ini (w, trades) t ht
      have h2 := foldl_stepWallet_lastSeen_mono rest (stepWallet ini (w, trades)) w.wallet
      exact le_trans h1 h2
    · exact ih (stepWallet ini p) w trades t hp2 ht

/-- Claim C2 (amended): watermarks never decrease across a cycle; after a
cycle, the watermark of each tracked wallet dominates the timestamps of every
trade fetched for it; and at any later per-wallet step, no trade whose
timestamp is at or below that wallet's stored watermark is admitted —
regardless of sentIds truncation. Hence a duplicate of a cycle-one trade
fetched for the same tracked wallet with the same (or older) timestamp is
never admitted again. A same-id trade with a strictly newer timestamp can be
re-admitted once truncation has evicted the id (see the counterexample). -/
theorem c2_amended :
    (∀ (wallets : List TrackedWallet) (fetch : String → Except Unit (List PolymarketTrade))
        (st : SSEState) (a : String),
        lookupWallet st.lastSeenByWallet a ≤
          lookupWallet (pollCycle wallets fetch st).1.lastSeenByWallet a) ∧
      (∀ (wallets : List TrackedWallet) (fetch : String → Except Unit (List PolymarketTrade))
          (st : SSEState) (w : TrackedWallet) (t : PolymarketTrade),
          w ∈ wallets → t ∈ fetchOrEmpty fetch w.wallet →
            t.timestamp ≤
              lookupWallet (pollCycle wallets fetch st).1.lastSeenByWallet w.wallet) ∧
      (∀ (st2 : SSEState) (w : TrackedWallet) (trades2 : List PolymarketTrade)
          (t2 : PolymarketTrade) (tr2 : String),
          t2.timestamp ≤ lookupWallet st2.lastSeenByWallet w.wallet →
            toTradeEvent t2 tr2 ∉ (stepWallet (st2, []) (w, trades2)).2) := by
  refine ⟨?_, ?_, ?_⟩
  · intro wallets fetch st a
    rw [pollCycle_eq_foldl]
    exact foldl_stepWallet_lastSeen_mono _ (st, []) a
  · intro wallets fetch st w t hw ht
    rw [pollCycle_eq_foldl]
    exact foldl_stepWallet_trades_le _ (st, []) w (fetchOrEmpty fetch w.wallet) t
      (List.mem_map.mpr ⟨w, hw, rfl⟩) ht
  · intro st2 w trades2 t2 tr2 hle hmem
    rcases stepWallet_snd_subset (st2, []) (w, trades2) _ hmem with h | h
    · simp at h
    · have h2 : toTradeEvent t2 tr2 ∈ freshEvents st2 w trades2 := h
      have h3 := mem_freshEvents_lt st2 w trades2 _ h2
      rw [toTradeEvent_timestampMs] at h3
      omega

/-- Witness for the amended C2: a wallet with one trade at timestamp 100; the
cycle raises its watermark to at least 100, and a step against a state whose
watermark is 100 admits no trade timestamped 100. -/
theorem c2_amended_witness :
    (c2amTrade ∈ fetchOrEmpty c2amFetch c2amWallet.wallet ∧
        c2amTrade.timestamp ≤
          lookupWallet (pollCycle [c2amWallet] c2amFetch initialState).1.lastSeenByWallet
            c2amWallet.wallet) ∧
      (c2amTrade.timestamp ≤ lookupWallet c2amState.lastSeenByWallet c2amWallet.wallet ∧
        toTradeEvent c2amTrade "T" ∉
          (stepWallet (c2amState, []) (c2amWallet, [c2amTrade])).2) :=
  ⟨⟨by decide,
      c2_amended.2.1 [c2amWallet] c2amFetch initialState c2amWallet c2amTrade (by decide)
        (by decide)⟩,
    ⟨by decide, c2_amended.2.2 c2amState c2amWallet [c2amTrade] c2amTrade "T" (by decide)⟩⟩

end PMVT
